import Mathlib

/-!
Verification of the KrpSim core against its natural-language specification.

The Python sources are shallowly embedded:
* `Stock`, `Process` mirror the dataclasses of `src/krpsim/parser.py`;
* a Python `dict[str, int]` is an insertion-ordered association list
  (`Dict`), and the partial operations `d[k] += v` / `d[k] -= v`, which
  raise `KeyError` when `k` is absent, are Option-valued (`pyModify`);
* `simulateLoop` embeds the loop of `Simulator.simulate`
  (`src/krpsim/simulator.py`), exposing the loop state (running ledger,
  running time, fitness, number of applied processes);
* the genetic-algorithm and graph components follow further down.
-/

namespace Krpsim

/-- Embeds the `Stock` dataclass of `parser.py`: a resource name with a
quantity. -/
structure Stock where
  name : String
  quantity : Int
deriving DecidableEq

/-- Embeds the `Process` dataclass of `parser.py`: name, needed stocks,
output stocks, and duration (`time`). -/
structure Process where
  name : String
  need : List Stock
  output : List Stock
  time : Int
deriving DecidableEq

/-- A Python `dict[str, int]` as an insertion-ordered association list. -/
abbrev Dict := List (String × Int)

/-- Python `d.get(k, dflt)` on a dict. -/
def pyGet (d : Dict) (k : String) (dflt : Int) : Int :=
  match d.find? (fun e => e.1 == k) with
  | some e => e.2
  | none => dflt

/-- Membership test `k in d` on a Python dict. -/
def pyContains (d : Dict) (k : String) : Bool :=
  d.any (fun e => e.1 == k)

/-- In-place update `d[k] = f(d[k])` of a Python dict (the compound
assignments `d[k] -= v` and `d[k] += v` read `d[k]` first): raises
`KeyError` — modelled as `none` — when `k` is absent. -/
def pyModify (d : Dict) (k : String) (f : Int → Int) : Option Dict :=
  if pyContains d k then
    some (d.map (fun e => if e.1 == k then (e.1, f e.2) else e))
  else
    none

/-- The availability test of `Simulator.simulate` (line 28):
`all(stocks.get(need.name, 0) >= need.quantity for need in process.need)`. -/
def availability (d : Dict) (p : Process) : Bool :=
  p.need.all (fun n => n.quantity ≤ pyGet d n.name 0)

/-- The need-consumption loop of `Simulator.simulate` (lines 30-31):
`stocks[need.name] -= need.quantity` for each need, in order. -/
def applyNeeds (d : Dict) (needs : List Stock) : Option Dict :=
  needs.foldlM (fun acc n => pyModify acc n.name (fun v => v - n.quantity)) d

/-- The output-production loop of `Simulator.simulate` (lines 32-33):
`stocks[output.name] += output.quantity` for each output, in order. -/
def applyOutputs (d : Dict) (outputs : List Stock) : Option Dict :=
  outputs.foldlM (fun acc o => pyModify acc o.name (fun v => v + o.quantity)) d

/-- The fitness-accumulation loop of `Simulator.simulate` (lines 39-41):
add `output.quantity` for every output whose name is in `optimize`. -/
def fitnessGain (optimize : List String) (outputs : List Stock) (fitness : Int) : Int :=
  outputs.foldl (fun acc o => if optimize.contains o.name then acc + o.quantity else acc) fitness

/-- The loop state of `Simulator.simulate`: the running ledger copy, the
running elapsed `time`, the running `fitness`, and the number of processes
applied so far (the loop's observable execution count). -/
structure SimState where
  stocks : Dict
  time : Int
  fitness : Int
  executed : Nat
deriving DecidableEq

/-- Embeds the loop of `Simulator.simulate` (`simulator.py` lines 26-42):
skip an unavailable process; otherwise consume needs, produce outputs, add
the duration, and if the elapsed time now exceeds `delay`, `break` (the
fitness addition for the overrunning process is never reached); otherwise
add the target-output quantities to the fitness and continue. `none`
models an uncaught `KeyError`. -/
def simulateLoop (optimize : List String) (delay : Int) :
    List Process → SimState → Option SimState
  | [], st => some st
  | p :: rest, st =>
    if availability st.stocks p then
      match applyNeeds st.stocks p.need with
      | none => none
      | some s1 =>
        match applyOutputs s1 p.output with
        | none => none
        | some s2 =>
          if delay < st.time + p.time then
            some ⟨s2, st.time + p.time, st.fitness, st.executed + 1⟩
          else
            simulateLoop optimize delay rest
              ⟨s2, st.time + p.time, fitnessGain optimize p.output st.fitness, st.executed + 1⟩
    else
      simulateLoop optimize delay rest st

/-- Embeds the `Simulator` dataclass of `simulator.py`. -/
structure Simulator where
  stocks : Dict
  optimize : List String
  delay : Int

/-- Method `simulate` of `Simulator`: returns only the fitness value; the
run starts from a copy of the initial stocks at time 0. -/
def Simulator.simulate (sim : Simulator) (schedule : List Process) : Option Int :=
  (simulateLoop sim.optimize sim.delay schedule ⟨sim.stocks, 0, 0, 0⟩).map SimState.fitness

/-- The `MakePlank` process of the specification's concrete scenarios:
need `{wood: 2}`, output `{plank: 1}`, duration 5. -/
def makePlank : Process := ⟨"MakePlank", [⟨"wood", 2⟩], [⟨"plank", 1⟩], 5⟩

/-- The ledger `{wood: 10}` as completed by the parser
(`update_stocks_quantity` inserts every referenced resource at 0). -/
def parsedLedger : Dict := [("wood", 10), ("plank", 0)]

/-- The ledger `{wood: 10}` taken literally, with no entry for `plank`. -/
def bareLedger : Dict := [("wood", 10)]

/-- C1 (amended): when applying an available process makes the elapsed time
exceed the budget, the process is still applied to the ledger and counted as
executed — even when it is the very first invocation — but its target-output
quantities are NOT added to the fitness (the loop breaks before the fitness
addition), and no later invocation is processed. -/
theorem c1_budget_overrun_applied_no_fitness
    (optimize : List String) (delay : Int) (p : Process) (rest : List Process)
    (st : SimState) (s1 s2 : Dict)
    (hav : availability st.stocks p = true)
    (hneed : applyNeeds st.stocks p.need = some s1)
    (hout : applyOutputs s1 p.output = some s2)
    (hover : delay < st.time + p.time) :
    simulateLoop optimize delay (p :: rest) st =
      some ⟨s2, st.time + p.time, st.fitness, st.executed + 1⟩ := by
  simp [simulateLoop, hav, hneed, hout, hover]

/-- Witness for C1: from `{wood: 10, plank: 0}` with budget 4, the first
`MakePlank` (duration 5) alone exceeds the budget, is still applied
(`wood` 8, `plank` 1, time 5, one execution), contributes no fitness, and
the second invocation is never processed. -/
theorem c1_budget_overrun_applied_no_fitness_witness :
    simulateLoop ["plank"] 4 [makePlank, makePlank] ⟨parsedLedger, 0, 0, 0⟩ =
      some ⟨[("wood", 8), ("plank", 1)], 5, 0, 1⟩ :=
  c1_budget_overrun_applied_no_fitness ["plank"] 4 makePlank [makePlank]
    ⟨parsedLedger, 0, 0, 0⟩ [("wood", 8), ("plank", 0)] [("wood", 8), ("plank", 1)]
    (by decide) (by decide) (by decide) (by decide)

/-- Counterexample for C1 as stated: the budget-overrunning `MakePlank`
produces one `plank` (a target resource), yet the returned fitness is 0,
not 1 — the fitness addition does not follow this successfully applied
process. -/
theorem c1_counterexample_overrun_fitness_not_added :
    (simulateLoop ["plank"] 4 [makePlank] ⟨parsedLedger, 0, 0, 0⟩).map SimState.fitness =
      some 0 ∧
    ¬ ((simulateLoop ["plank"] 4 [makePlank] ⟨parsedLedger, 0, 0, 0⟩).map SimState.fitness =
      some 1) := by decide

/-- C2 (amended): from the parser-completed ledger `{wood: 10, plank: 0}`,
the schedule `[MakePlank, MakePlank, MakePlank]` with budget 20 yields
fitness 3, elapsed time 15, 3 executions and final ledger
`{wood: 4, plank: 3}`; with budget 12 it yields fitness 2, but elapsed
time 15, 3 executions, and the third invocation IS applied (same final
ledger); from the literal ledger `{wood: 10}` the run raises `KeyError`. -/
theorem c2_concrete_scenarios :
    simulateLoop ["plank"] 20 [makePlank, makePlank, makePlank] ⟨parsedLedger, 0, 0, 0⟩ =
      some ⟨[("wood", 4), ("plank", 3)], 15, 3, 3⟩ ∧
    simulateLoop ["plank"] 12 [makePlank, makePlank, makePlank] ⟨parsedLedger, 0, 0, 0⟩ =
      some ⟨[("wood", 4), ("plank", 3)], 15, 2, 3⟩ ∧
    Simulator.simulate ⟨parsedLedger, ["plank"], 20⟩ [makePlank, makePlank, makePlank] =
      some 3 ∧
    Simulator.simulate ⟨parsedLedger, ["plank"], 12⟩ [makePlank, makePlank, makePlank] =
      some 2 ∧
    Simulator.simulate ⟨bareLedger, ["plank"], 20⟩ [makePlank, makePlank, makePlank] =
      none := by decide

/-- Counterexample for C2 as stated: with budget 12 the elapsed time is 15
(not 10) and the third invocation is applied (3 executions, ledger
`{wood: 4, plank: 3}`); moreover with the ledger taken literally as
`{wood: 10}` the budget-20 run raises `KeyError` instead of yielding the
claimed result. -/
theorem c2_counterexample_budget12 :
    (simulateLoop ["plank"] 12 [makePlank, makePlank, makePlank]
        ⟨parsedLedger, 0, 0, 0⟩).map SimState.time = some 15 ∧
    ¬ ((simulateLoop ["plank"] 12 [makePlank, makePlank, makePlank]
        ⟨parsedLedger, 0, 0, 0⟩).map SimState.time = some 10) ∧
    (simulateLoop ["plank"] 12 [makePlank, makePlank, makePlank]
        ⟨parsedLedger, 0, 0, 0⟩).map SimState.executed = some 3 ∧
    simulateLoop ["plank"] 20 [makePlank, makePlank, makePlank] ⟨bareLedger, 0, 0, 0⟩ =
      none := by decide

/-- C6: an invocation whose process is unavailable against the current
ledger is skipped — the whole loop state (ledger, elapsed time, fitness,
execution count) is exactly what the rest of the schedule yields — and in
particular, from `{wood: 1}`, a schedule containing only `MakePlank`
(need `{wood: 2}`) yields fitness 0, no executions, time 0 and an
unchanged ledger. -/
theorem c6_unavailable_skipped :
    (∀ (optimize : List String) (delay : Int) (p : Process) (rest : List Process)
        (st : SimState),
      availability st.stocks p = false →
      simulateLoop optimize delay (p :: rest) st = simulateLoop optimize delay rest st) ∧
    simulateLoop ["plank"] 1000 [makePlank] ⟨[("wood", 1)], 0, 0, 0⟩ =
      some ⟨[("wood", 1)], 0, 0, 0⟩ := by
  constructor
  · intro optimize delay p rest st h
    simp [simulateLoop, h]
  · decide

/-- Witness for C6: skipping the unavailable first `MakePlank` from
`{wood: 1}` leaves the simulation of the remaining schedule unchanged. -/
theorem c6_unavailable_skipped_witness :
    simulateLoop ["plank"] 1000 (makePlank :: [makePlank]) ⟨[("wood", 1)], 0, 0, 0⟩ =
      simulateLoop ["plank"] 1000 [makePlank] ⟨[("wood", 1)], 0, 0, 0⟩ :=
  c6_unavailable_skipped.1 ["plank"] 1000 makePlank [makePlank]
    ⟨[("wood", 1)], 0, 0, 0⟩ (by decide)

/-! ### Key-preservation of the dict operations, and totality of `simulate` -/

/-- The key list of a dict. -/
def dictKeys (d : Dict) : List String := d.map Prod.fst

theorem map_fst_pointwise_update (d : Dict) (k : String) (f : Int → Int) :
    dictKeys (d.map (fun e => if e.1 == k then (e.1, f e.2) else e)) = dictKeys d := by
  unfold dictKeys
  rw [List.map_map]
  refine List.map_congr_left ?_
  intro e _
  by_cases h : e.1 = k <;> simp [h]

theorem pyModify_of_contains {d : Dict} {k : String} (f : Int → Int)
    (h : pyContains d k = true) :
    pyModify d k f = some (d.map (fun e => if e.1 == k then (e.1, f e.2) else e)) := by
  simp [pyModify, h]

theorem pyContains_eq_keys (d : Dict) (k : String) :
    pyContains d k = (dictKeys d).any (fun s => s == k) := by
  induction d with
  | nil => rfl
  | cons e t ih =>
    simp only [pyContains, dictKeys, List.any_cons, List.map_cons] at ih ⊢
    rw [ih]

theorem pyContains_congr {d d' : Dict} (h : dictKeys d' = dictKeys d) (k : String) :
    pyContains d' k = pyContains d k := by
  rw [pyContains_eq_keys, pyContains_eq_keys, h]

/-- The shared shape of the need- and output-application loops: if every
listed resource name is a key of the dict, the fold succeeds and leaves
the key list unchanged. -/
theorem foldModify_some_keys (g : Stock → Int → Int) (l : List Stock) :
    ∀ d : Dict, (∀ s ∈ l, pyContains d s.name = true) →
      ∃ d', l.foldlM (fun acc s => pyModify acc s.name (g s)) d = some d' ∧
        dictKeys d' = dictKeys d := by
  induction l with
  | nil => intro d _; exact ⟨d, rfl, rfl⟩
  | cons s t ih =>
    intro d h
    have hc : pyContains d s.name = true := h s (by simp)
    have hm := pyModify_of_contains (g s) hc
    set d1 := d.map (fun e => if e.1 == s.name then (e.1, g s e.2) else e) with hd1
    have hk1 : dictKeys d1 = dictKeys d := map_fst_pointwise_update d s.name (g s)
    obtain ⟨d', hd', hk⟩ := ih d1
      (fun m hmem => by rw [pyContains_congr hk1]; exact h m (List.mem_cons_of_mem _ hmem))
    refine ⟨d', ?_, hk.trans hk1⟩
    simpa [List.foldlM_cons, hm] using hd'

theorem applyNeeds_some_keys (needs : List Stock) (d : Dict)
    (h : ∀ s ∈ needs, pyContains d s.name = true) :
    ∃ d', applyNeeds d needs = some d' ∧ dictKeys d' = dictKeys d :=
  foldModify_some_keys (fun n v => v - n.quantity) needs d h

theorem applyOutputs_some_keys (outputs : List Stock) (d : Dict)
    (h : ∀ s ∈ outputs, pyContains d s.name = true) :
    ∃ d', applyOutputs d outputs = some d' ∧ dictKeys d' = dictKeys d :=
  foldModify_some_keys (fun o v => v + o.quantity) outputs d h

theorem pyGet_of_not_contains {d : Dict} {k : String} (h : pyContains d k = false)
    (dflt : Int) : pyGet d k dflt = dflt := by
  unfold pyGet
  have hf : d.find? (fun e => e.1 == k) = none := by
    rw [List.find?_eq_none]
    intro x hx hk
    have hc : pyContains d k = true := by
      unfold pyContains
      rw [List.any_eq_true]
      exact ⟨x, hx, hk⟩
    rw [hc] at h
    cases h
  rw [hf]

/-- C7 (amended): the availability check treats a resource absent from the
ledger as present at quantity 0 (a positive need on an absent resource just
makes the process unavailable, never an error), and the simulation
completes — returning a fitness — whenever every resource referenced by a
scheduled process's `need` or `output` is a key of the running ledger;
applying an available process that references an absent resource raises
`KeyError` instead (see the counterexample). -/
theorem c7_simulate_total_when_keys_present :
    (∀ (d : Dict) (p : Process) (n : Stock), n ∈ p.need →
      pyContains d n.name = false → 0 < n.quantity → availability d p = false) ∧
    (∀ (schedule : List Process) (optimize : List String) (delay : Int) (st : SimState),
      (∀ p ∈ schedule, (∀ n ∈ p.need, pyContains st.stocks n.name = true) ∧
        (∀ o ∈ p.output, pyContains st.stocks o.name = true)) →
      ∃ r, simulateLoop optimize delay schedule st = some r) := by
  constructor
  · intro d p n hn habs hpos
    have h0 : pyGet d n.name 0 = 0 := pyGet_of_not_contains habs 0
    unfold availability
    rw [List.all_eq_false]
    exact ⟨n, hn, by simp [h0]; omega⟩
  · intro schedule
    induction schedule with
    | nil => intro optimize delay st _; exact ⟨st, rfl⟩
    | cons p rest ih =>
      intro optimize delay st h
      by_cases hav : availability st.stocks p = true
      · obtain ⟨d1, hd1, hk1⟩ := applyNeeds_some_keys p.need st.stocks (h p (by simp)).1
        obtain ⟨d2, hd2, hk2⟩ := applyOutputs_some_keys p.output d1
          (fun o ho => by rw [pyContains_congr hk1]; exact (h p (by simp)).2 o ho)
        have hk : dictKeys d2 = dictKeys st.stocks := hk2.trans hk1
        by_cases hover : delay < st.time + p.time
        · refine ⟨⟨d2, st.time + p.time, st.fitness, st.executed + 1⟩, ?_⟩
          simp [simulateLoop, hav, hd1, hd2, hover]
        · obtain ⟨r, hr⟩ := ih optimize delay
            ⟨d2, st.time + p.time, fitnessGain optimize p.output st.fitness, st.executed + 1⟩
            (fun q hq => ⟨fun n hn => by
                rw [pyContains_congr hk]; exact (h q (List.mem_cons_of_mem _ hq)).1 n hn,
              fun o ho => by
                rw [pyContains_congr hk]; exact (h q (List.mem_cons_of_mem _ hq)).2 o ho⟩)
          exact ⟨r, by simp [simulateLoop, hav, hd1, hd2, hover]; exact hr⟩
      · have hav' : availability st.stocks p = false := by
          cases hb : availability st.stocks p
          · rfl
          · exact absurd hb hav
        obtain ⟨r, hr⟩ := ih optimize delay st
          (fun q hq => h q (List.mem_cons_of_mem _ hq))
        exact ⟨r, by simp [simulateLoop, hav']; exact hr⟩

/-- Witness for C7: `MakePlank` with a positive need on a resource absent
from `{}` is unavailable, and the run from the parser-completed ledger
(all referenced resources present) completes. -/
theorem c7_simulate_total_when_keys_present_witness :
    availability [] makePlank = false ∧
    ∃ r, simulateLoop ["plank"] 20 [makePlank, makePlank, makePlank]
      ⟨parsedLedger, 0, 0, 0⟩ = some r :=
  ⟨c7_simulate_total_when_keys_present.1 [] makePlank ⟨"wood", 2⟩ (by decide)
      (by decide) (by decide),
    c7_simulate_total_when_keys_present.2 [makePlank, makePlank, makePlank] ["plank"] 20
      ⟨parsedLedger, 0, 0, 0⟩ (by decide)⟩

/-- Counterexample for C7 as stated: from the ledger `{wood: 10}`, the
available `MakePlank` references the absent output resource `plank`, and
the simulation raises `KeyError` instead of treating it as quantity 0 and
returning a fitness. -/
theorem c7_counterexample_absent_output_keyerror :
    simulateLoop ["plank"] 100 [makePlank] ⟨bareLedger, 0, 0, 0⟩ = none ∧
    Simulator.simulate ⟨bareLedger, ["plank"], 100⟩ [makePlank] = none := by decide

/-! ### The genetic-algorithm component (`genetic_algo.py`) -/

/-- Embeds the `Schedule` dataclass of `genetic_algo.py`: a process list
together with the stocks, optimize targets and delay it was created
with. -/
structure GASchedule where
  processes : List Process
  stocks : Dict
  optimize : List String
  delay : Int
deriving DecidableEq

/-- Embeds `Schedule.fitness` (`genetic_algo.py` lines 20-42): sum, over
the optimize targets present in the schedule's own `stocks` dict, of their
stored quantities, plus 1 when the total declared duration of the process
list is within `delay`. No simulation is involved. -/
def scheduleFitness (s : GASchedule) : Int :=
  (s.optimize.foldl
    (fun acc st => if pyContains s.stocks st then acc + pyGet s.stocks st 0 else acc) 0) +
  (if s.processes.foldl (fun acc p => acc + p.time) 0 ≤ s.delay then 1 else 0)

theorem foldl_add_eq_sum {α : Type} (f : α → Int) (l : List α) :
    ∀ init : Int, l.foldl (fun acc x => acc + f x) init = init + (l.map f).sum := by
  induction l with
  | nil => intro init; simp
  | cons x t ih => intro init; simp only [List.foldl_cons, List.map_cons, List.sum_cons,
      ih (init + f x)]; ring

theorem guarded_stock_foldl_eq (d : Dict) (l : List String) :
    ∀ init : Int,
      l.foldl (fun acc st => if pyContains d st then acc + pyGet d st 0 else acc) init =
        init + (l.map (fun st => pyGet d st 0)).sum := by
  induction l with
  | nil => intro init; simp
  | cons x t ih =>
    intro init
    simp only [List.foldl_cons, List.map_cons, List.sum_cons]
    cases hc : pyContains d x with
    | false =>
      rw [if_neg (by simp [hc]), pyGet_of_not_contains hc, ih init]
      ring
    | true =>
      rw [if_pos (by simp [hc]), ih (init + pyGet d x 0)]
      ring

/-- C3 (amended): the fitness the optimizer assigns to a schedule is the
sum of the stored quantities of the target resources in the schedule's own
`stocks` dict, plus a bonus of 1 exactly when the schedule's total declared
duration is within the time budget; the Simulator is never invoked. -/
theorem c3_schedule_fitness_formula (s : GASchedule) :
    scheduleFitness s =
      (s.optimize.map (fun st => pyGet s.stocks st 0)).sum +
        (if (s.processes.map Process.time).sum ≤ s.delay then 1 else 0) := by
  unfold scheduleFitness
  rw [guarded_stock_foldl_eq, foldl_add_eq_sum Process.time]
  simp

/-- The two-invocation schedule of the C3 counterexample, carrying the
parser-completed ledger `{wood: 10, plank: 0}` and budget 20. -/
def gaExample : GASchedule := ⟨[makePlank, makePlank], parsedLedger, ["plank"], 20⟩

/-- Counterexample for C3 as stated: for `gaExample`, the Simulator's
fitness is 2 and the total declared duration (10) is within the budget, so
the claim predicts an optimizer fitness of 2 + 1 = 3; the optimizer
actually assigns 1 (the stored `plank` quantity 0, plus the bonus). -/
theorem c3_counterexample_no_simulation :
    scheduleFitness gaExample = 1 ∧
    Simulator.simulate ⟨gaExample.stocks, gaExample.optimize, gaExample.delay⟩
      gaExample.processes = some 2 ∧
    (gaExample.processes.map Process.time).sum ≤ gaExample.delay ∧
    (1 : Int) ≠ 2 + 1 := by decide

/-- Python `random.randint(lo, hi)`: a uniform draw from the inclusive range
`[lo, hi]`, raising `ValueError` when `hi < lo`. The draw is supplied by
the seed `r`; every value of the range is reached by some seed. -/
def pyRandint (lo hi : Int) (r : Nat) : Option Int :=
  if hi < lo then none else some (lo + (r : Int) % (hi - lo + 1))

/-- Embeds `Schedule.crossover` (`genetic_algo.py` lines 44-60): the cut is
`random.randint(1, len(self.processes) - 1)` — based on the first parent
only — and the offspring is `self.processes[:cut] + other.processes[cut:]`
with the first parent's stocks, optimize and delay. -/
def crossover (a b : GASchedule) (r : Nat) : Option GASchedule :=
  match pyRandint 1 ((a.processes.length : Int) - 1) r with
  | none => none
  | some cut =>
    some ⟨a.processes.take cut.toNat ++ b.processes.drop cut.toNat,
      a.stocks, a.optimize, a.delay⟩

/-- C8 (amended): crossover draws its cut uniformly from
`[1, len(first parent) - 1]` — the shorter parent's length is never
consulted — and returns the first parent's prefix up to the cut followed by
the second parent's suffix from the cut (possibly empty); when the first
parent has length ≤ 1 the draw's range is empty and crossover raises
`ValueError` instead of returning a copy of a parent. -/
theorem c8_crossover_spec (a b : GASchedule) (r : Nat) :
    (a.processes.length ≤ 1 → crossover a b r = none) ∧
    (2 ≤ a.processes.length →
      ∃ cut : Nat, 1 ≤ cut ∧ cut ≤ a.processes.length - 1 ∧
        crossover a b r =
          some ⟨a.processes.take cut ++ b.processes.drop cut,
            a.stocks, a.optimize, a.delay⟩) := by
  constructor
  · intro h1
    have hlt : ((a.processes.length : Int) - 1) < 1 := by
      have : (a.processes.length : Int) ≤ 1 := by exact_mod_cast h1
      omega
    simp [crossover, pyRandint, hlt]
  · intro h2
    have hge : (1 : Int) ≤ (a.processes.length : Int) - 1 := by
      have : (2 : Int) ≤ (a.processes.length : Int) := by exact_mod_cast h2
      omega
    have hnlt : ¬ ((a.processes.length : Int) - 1 < 1) := by omega
    have hpos : (0 : Int) < (a.processes.length : Int) - 1 := by omega
    set m : Int := (a.processes.length : Int) - 1 with hm
    have hmodlt : (r : Int) % m < m := Int.emod_lt_of_pos _ hpos
    have hmodge : (0 : Int) ≤ (r : Int) % m := Int.emod_nonneg _ (by omega)
    refine ⟨(1 + (r : Int) % m).toNat, ?_, ?_, ?_⟩
    · omega
    · omega
    · simp only [crossover, pyRandint, hnlt, if_neg]
      have harith : m - 1 + 1 = m := by ring
      rw [hm] at harith ⊢
      norm_num [harith]

/-- A second process used to build concrete genetic-algorithm inputs. -/
def makeTable : Process := ⟨"MakeTable", [⟨"plank", 4⟩], [⟨"table", 1⟩], 10⟩

/-- A length-1 schedule (first parent of the C8 counterexample). -/
def gaSingle : GASchedule := ⟨[makePlank], parsedLedger, ["plank"], 20⟩

/-- A length-3 schedule with a distinguishable middle process. -/
def gaTriple : GASchedule := ⟨[makePlank, makeTable, makePlank], parsedLedger, ["plank"], 20⟩

/-- A length-1 schedule whose single process differs from `gaTriple`'s. -/
def gaSingleT : GASchedule := ⟨[makeTable], parsedLedger, ["plank"], 20⟩

/-- Witness for C8: crossing the length-2 `gaExample` with `gaSingle`
under seed 0 yields a valid cut. -/
theorem c8_crossover_spec_witness :
    ∃ cut : Nat, 1 ≤ cut ∧ cut ≤ gaExample.processes.length - 1 ∧
      crossover gaExample gaSingle 0 =
        some ⟨gaExample.processes.take cut ++ gaSingle.processes.drop cut,
          gaExample.stocks, gaExample.optimize, gaExample.delay⟩ :=
  (c8_crossover_spec gaExample gaSingle 0).2 (by decide)

/-- Counterexample for C8 as stated: a first parent of length 1 makes
crossover raise `ValueError` (not return a copy of a parent); and with a
length-1 second parent, a length-3 first parent and seed 1 the cut is 2 —
outside the claimed range `[1, len(shorter) - 1]` — and the offspring
`[MakePlank, MakeTable]` is a copy of neither parent. -/
theorem c8_counterexample_length_one_raises :
    crossover gaSingle gaExample 0 = none ∧
    (crossover gaTriple gaSingleT 1).map GASchedule.processes =
      some [makePlank, makeTable] ∧
    [makePlank, makeTable] ≠ gaTriple.processes ∧
    [makePlank, makeTable] ≠ gaSingleT.processes := by decide

/-- A Python value as handled by the summation in `selection`: an `int`
(such as the initial accumulator `0` of `sum`) or the bound-method object
obtained by the attribute access `schedule.fitness`, which the generator
expression never calls. -/
inductive PyNum where
  | int : Int → PyNum
  | boundMethod : PyNum
deriving DecidableEq

/-- Python `+` on such values: `int + int` adds; adding an `int` and a
bound method raises `TypeError`. -/
def pyAddNum : PyNum → PyNum → Option PyNum
  | .int a, .int b => some (.int (a + b))
  | _, _ => none

/-- The attribute access `schedule.fitness` in
`sum(schedule.fitness for schedule in population)`
(`genetic_algo.py` line 117): without call parentheses it evaluates to the
bound method object, not to the fitness value. -/
def fitnessAttr (_ : GASchedule) : PyNum := .boundMethod

/-- Embeds `sum(schedule.fitness for schedule in population)`: a left fold of
Python `+` starting from the `int` 0. -/
def pySumFitness (pop : List GASchedule) : Option PyNum :=
  pop.foldlM (fun acc s => pyAddNum acc (fitnessAttr s)) (.int 0)

/-- Embeds `selection` (`genetic_algo.py` lines 106-127). The summation of
the uncalled `schedule.fitness` attributes runs first; it raises
`TypeError` on every non-empty population. The roulette loop that follows
appends a parent only when the running total exceeds the pick, and its
inner `for` iterates over the population — so in the only case that
reaches it (the empty population) it appends nothing and the function
returns `[]`, regardless of `num_parents`. -/
def selection (pop : List GASchedule) (_numParents : Nat) : Option (List GASchedule) :=
  match pySumFitness pop with
  | none => none
  | some _ => some []

/-- C9, evaluated at a failing input: on the one-schedule population the
summation adds the `int` 0 to the bound method `schedule.fitness` and
raises `TypeError`; no parents are returned at all, let alone the
requested single fitness-proportional (or uniform) parent. -/
theorem c9_selection_type_error :
    pySumFitness [gaSingle] = none ∧
    selection [gaSingle] 1 = none := by decide

/-! ### The dependency-graph component (`graph.py`) -/

/-- A graph-side process: `Graph` indexes `need` and `output` as mappings
(`need.items()`, `p.output[need]`, `p.need[stock]`), so both are embedded
as dicts. -/
structure GProcess where
  name : String
  need : Dict
  output : Dict
deriving DecidableEq

/-- Embeds the `Exec` dataclass of `graph.py`: a process name with the
number of times it is to be executed. -/
structure GExec where
  name : String
  times : Int
deriving DecidableEq

/-- Python dict indexing `d[k]`: `KeyError` when the key is absent. -/
def pyIndex (d : Dict) (k : String) : Option Int :=
  match d.find? (fun e => e.1 == k) with
  | some e => some e.2
  | none => none

/-- Indexing `self.outputs[need]`: the producer list of a resource;
`KeyError` when the resource has no producer. -/
def pyIndexProducers (m : List (String × List GProcess)) (k : String) :
    Option (List GProcess) :=
  match m.find? (fun e => e.1 == k) with
  | some e => some e.2
  | none => none

/-- Python `math.ceil(a / b)` on integer operands: the exact ceiling of the
rational `a / b`; `ZeroDivisionError` when `b = 0`. -/
def pyCeilDiv (a b : Int) : Option Int :=
  if b = 0 then none else some (-((-a).fdiv b))

/-- The producer-candidate comprehension of `Graph.get_process_children`
(`graph.py` lines 165-169): for each producer `p` of the unmet resource,
`Exec(p.name, ceil(qty / (p.output[need] + stock[need])))` — note that the
ledger's current quantity is added to the per-run output in the
denominator. -/
def execsForNeed (producers : List GProcess) (needName : String) (qty : Int)
    (stock : Dict) : Option (List GExec) :=
  producers.mapM (fun p => do
    let o ← pyIndex p.output needName
    let s ← pyIndex stock needName
    let t ← pyCeilDiv qty (o + s)
    pure ⟨p.name, t⟩)

/-- The unmet-need loop of `Graph.get_process_children` (lines 161-170):
a need is skipped when `stock.get(need, 1) >= qty` (note the default 1);
otherwise the producer-alternative list for that need is appended. -/
def processChildrenMatrices (pNeed : Dict) (outputs : List (String × List GProcess))
    (stock : Dict) : Option (List (List GExec)) :=
  pNeed.foldlM
    (fun acc nq =>
      if nq.2 ≤ pyGet stock nq.1 1 then pure acc
      else do
        let prods ← pyIndexProducers outputs nq.1
        let m ← execsForNeed prods nq.1 nq.2 stock
        pure (acc ++ [m]))
    []

/-- The single producer of `plank` in the C4 scenario: 3 per run. -/
def prodP : GProcess := ⟨"P", [], [("plank", 3)]⟩

/-- C4, evaluated at a failing input: needing 10 `plank` with 2 already in
the ledger and a producer yielding 3 per run, the code assigns
`ceil(10 / (3 + 2)) = 2` repetitions — after which `2 * 3 + 2 = 8 < 10`,
not enough stock, contradicting `Exec`'s documented purpose — whereas the
needed-quantity formula of the claim gives `ceil((10 - 2) / 3) = 3`. -/
theorem c4_repetition_undercount :
    processChildrenMatrices [("plank", 10)] [("plank", [prodP])] [("plank", 2)] =
      some [[⟨"P", 2⟩]] ∧
    execsForNeed [prodP] "plank" 10 [("plank", 2)] = some [⟨"P", 2⟩] ∧
    (2 : Int) * 3 + 2 < 10 ∧
    pyCeilDiv (10 - 2) 3 = some 3 := by decide

/-- Nested lists of arbitrary depth, as produced by `tolist()` on a
multi-dimensional numpy array. -/
inductive NList (α : Type) where
  | leaf : α → NList α
  | node : List (NList α) → NList α

/-- The length of the outermost list of a nested-list value. -/
def nlistLen {α : Type} : NList α → Nat
  | .leaf _ => 0
  | .node l => l.length

/-- Modelled from the numpy semantics of
`np.array(np.meshgrid(xs, ys, zs)).transpose().tolist()` — the body of
`Node.combinations` in `graph.py` — for three vectors of scalars:
`np.meshgrid` with its default `"xy"` indexing returns three arrays of
shape `(len ys, len xs, len zs)` with `X[j][i][k] = xs[i]`,
`Y[j][i][k] = ys[j]`, `Z[j][i][k] = zs[k]`; `np.array` stacks them into
shape `(3, len ys, len xs, len zs)`; `transpose()` reverses the axes to
`(len zs, len xs, len ys, 3)`. The `tolist()` value is therefore
`z`-major, then `x`, then `y`, the innermost list being the coordinate
triple `[x, y, z]`. -/
def npCombinations3 (xs ys zs : List Int) : NList Int :=
  .node (zs.map (fun z =>
    .node (xs.map (fun x =>
      .node (ys.map (fun y =>
        .node [.leaf x, .leaf y, .leaf z]))))))

/-- The flat list of 12 combinations that the docstring of
`Node.combinations` promises for the matrix `[[1,2,3],[4,5],[6,7]]`. -/
def docstringCombinations : NList Int :=
  .node ([[1, 4, 6], [1, 5, 6], [2, 4, 6], [2, 5, 6], [3, 4, 6], [3, 5, 6],
          [1, 4, 7], [1, 5, 7], [2, 4, 7], [2, 5, 7], [3, 4, 7], [3, 5, 7]].map
    (fun t => .node (t.map .leaf)))

/-- C5, evaluated at the failing input taken from `Node.combinations`' own
docstring: for the matrix `[[1,2,3],[4,5],[6,7]]` the
meshgrid/transpose/tolist pipeline returns a 2-element outer nesting (a
`2 × 3 × 2 × 3` structure), not the documented flat list of 12
producer-choice combinations — so `get_children` does not receive one
combination per child. -/
theorem c5_combinations_not_cartesian :
    nlistLen (npCombinations3 [1, 2, 3] [4, 5] [6, 7]) = 2 ∧
    nlistLen docstringCombinations = 12 ∧
    npCombinations3 [1, 2, 3] [4, 5] [6, 7] ≠ docstringCombinations := by
  refine ⟨rfl, rfl, ?_⟩
  intro h
  exact absurd (congrArg nlistLen h) (by decide)

/-! ### Population initialization (`initialize_population`) -/

theorem getElem_cons_eraseIdx_perm {α : Type} [DecidableEq α] (l : List α) (i : Nat)
    (h : i < l.length) : l.Perm (l.get ⟨i, h⟩ :: l.eraseIdx i) :=
  (List.perm_cons_erase (l.getElem_mem h)).trans
    ((List.erase_getElem h).cons l[i])

/-- Python `random.sample(population, k)`: `k` elements drawn without
replacement, i.e. `k` distinct positions of the list. The draws are
supplied by `seed`, each entry selecting the next element among those
remaining; every possible `random.sample` outcome is reached by some
seed and no other outcome is reachable. -/
def pySample : Nat → List Process → List Nat → List Process
  | 0, _, _ => []
  | k + 1, l, seed =>
    if h : 0 < l.length then
      l.get ⟨seed.headD 0 % l.length, Nat.mod_lt _ h⟩ ::
        pySample k (l.eraseIdx (seed.headD 0 % l.length)) seed.tail
    else []

theorem pySample_length : ∀ (k : Nat) (l : List Process) (seed : List Nat),
    k ≤ l.length → (pySample k l seed).length = k := by
  intro k
  induction k with
  | zero => intro l seed _; rfl
  | succ k ih =>
    intro l seed hk
    have h : 0 < l.length := by omega
    have hi : seed.headD 0 % l.length < l.length := Nat.mod_lt _ h
    have herase : (l.eraseIdx (seed.headD 0 % l.length)).length + 1 = l.length :=
      List.length_eraseIdx_add_one hi
    simp only [pySample, dif_pos h, List.length_cons]
    rw [ih (l.eraseIdx (seed.headD 0 % l.length)) seed.tail (by omega)]

theorem pySample_count : ∀ (k : Nat) (l : List Process) (seed : List Nat) (p : Process),
    (pySample k l seed).count p ≤ l.count p := by
  intro k
  induction k with
  | zero => intro l seed p; simp [pySample]
  | succ k ih =>
    intro l seed p
    by_cases h : 0 < l.length
    · have hi : seed.headD 0 % l.length < l.length := Nat.mod_lt _ h
      have hperm := getElem_cons_eraseIdx_perm l (seed.headD 0 % l.length) hi
      have hcount := hperm.count_eq p
      simp only [pySample, dif_pos h]
      rw [hcount, List.count_cons, List.count_cons]
      have := ih (l.eraseIdx (seed.headD 0 % l.length)) seed.tail p
      omega
    · simp [pySample, dif_neg h]

theorem pySample_nodup (k : Nat) (l : List Process) (seed : List Nat)
    (hl : l.Nodup) : (pySample k l seed).Nodup := by
  rw [List.nodup_iff_count_le_one]
  intro a
  exact le_trans (pySample_count k l seed a) (List.nodup_iff_count_le_one.mp hl a)

/-- Embeds `initialize_population` (`genetic_algo.py` lines 74-103): for
each of `num` schedules, draw `k = random.randint(1, len(processes))` and
build a schedule from `random.sample(processes, k)` with a copy of the
stocks; `random.randint(1, 0)` raises `ValueError` when the catalogue is
empty. Each element of `seeds` supplies one schedule's draws. -/
def initializePopulation : Nat → List Process → Dict → List String → Int →
    List (Nat × List Nat) → Option (List GASchedule)
  | 0, _, _, _, _, _ => some []
  | n + 1, procs, stocks, optimize, delay, seeds =>
    match pyRandint 1 (procs.length : Int) (seeds.headD (0, [])).1 with
    | none => none
    | some k =>
      match initializePopulation n procs stocks optimize delay seeds.tail with
      | none => none
      | some rest =>
        some (⟨pySample k.toNat procs (seeds.headD (0, [])).2, stocks, optimize, delay⟩
          :: rest)

/-- C10: with a non-empty catalogue, `initialize_population` always
succeeds and returns exactly `num` schedules; every returned schedule has
between 1 and `len(processes)` invocations, never contains a catalogue
entry more often than the catalogue does, and in particular repeats no
process when the catalogue itself has no duplicates. -/
theorem c10_initialize_population_spec
    (procs : List Process) (stocks : Dict) (optimize : List String) (delay : Int)
    (hne : procs ≠ []) :
    ∀ (num : Nat) (seeds : List (Nat × List Nat)),
      ∃ pop, initializePopulation num procs stocks optimize delay seeds = some pop ∧
        pop.length = num ∧
        ∀ s ∈ pop, 1 ≤ s.processes.length ∧ s.processes.length ≤ procs.length ∧
          (∀ p : Process, s.processes.count p ≤ procs.count p) ∧
          (procs.Nodup → s.processes.Nodup) := by
  have hlen : 0 < procs.length := List.length_pos.mpr hne
  have hlenI : (1 : Int) ≤ (procs.length : Int) := by exact_mod_cast hlen
  intro num
  induction num with
  | zero => intro seeds; exact ⟨[], rfl, rfl, by simp⟩
  | succ n ih =>
    intro seeds
    obtain ⟨pop, hpop, hlenpop, hall⟩ := ih seeds.tail
    set r : Nat := (seeds.headD (0, [])).1 with hr
    set kI : Int := 1 + (r : Int) % (procs.length : Int) with hkI
    have hnlt : ¬ ((procs.length : Int) < 1) := by omega
    have hrand : pyRandint 1 (procs.length : Int) r = some kI := by
      simp [pyRandint, hnlt, hkI]
    have hmodge : (0 : Int) ≤ (r : Int) % (procs.length : Int) :=
      Int.emod_nonneg _ (by omega)
    have hmodlt : (r : Int) % (procs.length : Int) < (procs.length : Int) :=
      Int.emod_lt_of_pos _ (by omega)
    have hk1 : 1 ≤ kI.toNat := by omega
    have hk2 : kI.toNat ≤ procs.length := by omega
    refine ⟨⟨pySample kI.toNat procs (seeds.headD (0, [])).2, stocks, optimize, delay⟩
      :: pop, ?_, ?_, ?_⟩
    · simp only [initializePopulation, hrand, hpop]
    · simp [hlenpop]
    · intro s hs
      rcases List.mem_cons.mp hs with hhead | htail
      · subst hhead
        have hslen : (pySample kI.toNat procs (seeds.headD (0, [])).2).length = kI.toNat :=
          pySample_length kI.toNat procs _ hk2
        refine ⟨?_, ?_, fun p => pySample_count kI.toNat procs _ p,
          fun hnd => pySample_nodup kI.toNat procs _ hnd⟩
        · show 1 ≤ (pySample kI.toNat procs (seeds.headD (0, [])).2).length
          rw [hslen]
          exact hk1
        · show (pySample kI.toNat procs (seeds.headD (0, [])).2).length ≤ procs.length
          rw [hslen]
          exact hk2
      · exact hall s htail

/-- Witness for C10: a concrete two-schedule population from the
two-process catalogue `[MakePlank, MakeTable]`. -/
theorem c10_initialize_population_spec_witness :
    ∃ pop, initializePopulation 2 [makePlank, makeTable] parsedLedger ["plank"] 20
        [(0, [1]), (1, [0, 5])] = some pop ∧
      pop.length = 2 ∧
      ∀ s ∈ pop, 1 ≤ s.processes.length ∧
        s.processes.length ≤ [makePlank, makeTable].length ∧
        (∀ p : Process, s.processes.count p ≤ [makePlank, makeTable].count p) ∧
        ([makePlank, makeTable].Nodup → s.processes.Nodup) :=
  c10_initialize_population_spec [makePlank, makeTable] parsedLedger ["plank"] 20
    (by decide) 2 [(0, [1]), (1, [0, 5])]

end Krpsim
